import Mathlib

/-!
Shallow embedding of `src/lib/terms.h` — the pluggable energy-term framework
(term taxonomy, charge decomposition, homogeneous term registry `term_set`,
the weighted `factors` container, and the `terms` aggregate), together with
theorems settling the specification's claims about it.

Numeric values of type `fl` (a floating-point alias in the source) are
modelled as rationals; the machine type `sz` as `Nat`; the atom type tag
`smt` (an enumeration in the external model header) as `Nat`.
-/

set_option autoImplicit false

abbrev fl : Type := ℚ

abbrev flv : Type := List fl

abbrev sz : Type := ℕ

/-- Atom type tag (the `smt` enumeration of the external model header),
modelled abstractly as a natural number. -/
abbrev smt : Type := ℕ

/-- The slice of the external model's atom value that this unit consumes:
a type tag `sm` and a partial charge `charge` (spec §6: "An atom-like value
exposing a type tag, a partial charge, and a base projection usable where
only type matters"). -/
structure atom_base where
  sm : smt
  charge : fl

/-- Modelled from the spec: `atom_base::get()` is declared in the external
model header (`model.h`), which is not part of this unit.  Per spec §6 it is
the "base projection usable where only type matters", i.e. it yields the
atom's type tag. -/
def atom_base.get (a : atom_base) : smt := a.sm

/-- The four-coefficient charge decomposition
(`charge_dependent::components` in the source). -/
structure components where
  type_dependent_only : fl
  a_charge_dependent : fl
  b_charge_dependent : fl
  ab_charge_dependent : fl

/-- `components::operator+=(const components&)` — elementwise addition of the
four coefficients (modelled functionally: the mutated receiver is the
returned value). -/
def components.addComponents (c rhs : components) : components where
  type_dependent_only := c.type_dependent_only + rhs.type_dependent_only
  a_charge_dependent := c.a_charge_dependent + rhs.a_charge_dependent
  b_charge_dependent := c.b_charge_dependent + rhs.b_charge_dependent
  ab_charge_dependent := c.ab_charge_dependent + rhs.ab_charge_dependent

/-- `components::operator+=(fl)` — adding a non-charge-dependent scalar
touches only the type-dependent slot. -/
def components.addScalar (c : components) (val : fl) : components :=
  { c with type_dependent_only := c.type_dependent_only + val }

/-- A charge-dependent term: its one pure-virtual capability
`eval_components` is modelled as a function field, keyed on the two atom
types and the distance (as in the source). -/
structure charge_dependent where
  name : String
  cutoff : fl
  eval_components : smt → smt → fl → components

/-- `charge_dependent::eval` — the fixed recombination formula over the four
coefficients and the two partial charges. -/
def charge_dependent.eval (t : charge_dependent) (a b : atom_base) (r : fl) : fl :=
  let c := t.eval_components a.sm b.sm r
  c.type_dependent_only +
    a.charge * c.a_charge_dependent +
    b.charge * c.b_charge_dependent +
    a.charge * b.charge * c.ab_charge_dependent

/-- Result of a computation guarded by the fatal-assertion mechanism.
Modelled from the spec: `VINA_CHECK` lives in a header outside this unit;
per spec §4.1 a failed check "raises the failure signal" and the surrounding
code then still produces a sentinel value, so the result carries the
raised-signal flag alongside the value. -/
structure CheckResult where
  check_failed : Bool
  value : fl

/-- A "usable" term: the virtual two-type evaluation
`usable::eval(smt, smt, fl)` has a failing default body
(`VINA_CHECK(false); return 0;`); a concrete term may override it.  The
override is modelled as an optional function field, `none` meaning the
default body is in effect. -/
structure usable where
  name : String
  cutoff : fl
  eval_override : Option (smt → smt → fl → fl)

/-- Dispatch of the virtual `usable::eval(smt t1, smt t2, fl r)`: the
override when present, otherwise the failing default
(`VINA_CHECK(false); return 0;`). -/
def usable.eval_types (u : usable) (t1 t2 : smt) (r : fl) : CheckResult :=
  match u.eval_override with
  | some f => { check_failed := false, value := f t1 t2 r }
  | none => { check_failed := true, value := 0 }

/-- `usable::eval(const atom_base&, const atom_base&, fl)` — forwards to the
two-type evaluation through the type-only projections `a.get()`, `b.get()`. -/
def usable.eval (u : usable) (a b : atom_base) (r : fl) : CheckResult :=
  u.eval_types a.get b.get r

/-- Projection of the base `term` attribute `name`, shared by every term
kind stored in a registry. -/
class TermLike (T : Type) where
  name : T → String

/-- Projection of the `cutoff` attribute, present on the distance-based term
kinds (`max_cutoff` is only ever instantiated for those). -/
class HasCutoff (T : Type) where
  cutoff : T → fl

instance : TermLike charge_dependent := ⟨charge_dependent.name⟩

instance : TermLike usable := ⟨usable.name⟩

instance : HasCutoff charge_dependent := ⟨charge_dependent.cutoff⟩

instance : HasCutoff usable := ⟨usable.cutoff⟩

/-- The homogeneous registry `term_set<T>`: an ordered collection of owned
terms (`fun` in the source, renamed `funs` — `fun` is reserved in Lean)
paired with an ordered collection of enable flags. -/
structure term_set (T : Type) where
  enabled : List Bool
  funs : List T

/-- A freshly constructed (default-initialized) registry: both vectors
empty. -/
def term_set.empty {T : Type} : term_set T := ⟨[], []⟩

/-- `term_set::add(unsigned e, T* f)` — appends the flag `e > 0` and the
term, in that order. -/
def term_set.add {T : Type} (s : term_set T) (e : ℕ) (f : T) : term_set T :=
  { enabled := s.enabled ++ [decide (0 < e)], funs := s.funs ++ [f] }

/-- A sequence of `add` calls, applied left to right. -/
def term_set.addAll {T : Type} (s : term_set T) (ps : List (ℕ × T)) : term_set T :=
  ps.foldl (fun acc p => acc.add p.1 p.2) s

/-- `term_set::num_enabled()` — the count of true flags. -/
def term_set.num_enabled {T : Type} (s : term_set T) : sz :=
  s.enabled.count true

/-- `term_set::size()`. -/
def term_set.size {T : Type} (s : term_set T) : sz := s.funs.length

/-- `term_set::max_cutoff()` — `tmp = 0`, then `tmp = max(tmp, cutoff)` over
every term, enabled or not. -/
def term_set.max_cutoff {T : Type} [HasCutoff T] (s : term_set T) : fl :=
  s.funs.foldl (fun tmp f => max tmp (HasCutoff.cutoff f)) 0

/-- Loop body of `term_set::get_names`: walks the terms with the flags
alongside, appending a name whenever `!enabled_only || enabled[i]`. -/
def appendNamesLoop {T : Type} [TermLike T] (enabled_only : Bool) :
    List T → List Bool → List String → List String
  | [], _, out => out
  | _ :: _, [], out => out
  | f :: fs, b :: bs, out =>
      appendNamesLoop enabled_only fs bs
        (if !enabled_only || b then out ++ [TermLike.name f] else out)

/-- `term_set::get_names(bool enabled_only, std::vector<std::string>& out)`
— checks `enabled.size() == fun.size()` (a failed check is modelled as
`none`), then appends names to `out`. -/
def term_set.get_names {T : Type} [TermLike T] (s : term_set T)
    (enabled_only : Bool) (out : List String) : Option (List String) :=
  if s.enabled.length = s.funs.length then
    some (appendNamesLoop enabled_only s.funs s.enabled out)
  else none

/-- Loop body of `term_set::filter`: walks the flags, consuming one input
value per flag (the iterator is modelled by the list of values not yet
consumed), appending the value when the flag is set.  Dereferencing an
exhausted iterator is undefined behaviour in the source, modelled as
`none`. -/
def filterLoop : List Bool → List fl → List fl → Option (List fl × List fl)
  | [], input, out => some (input, out)
  | _ :: _, [], _ => none
  | b :: bs, v :: vs, out =>
      filterLoop bs vs (if b then out ++ [v] else out)

/-- `term_set::filter(flv::const_iterator& in, flv& out)` — checks
`enabled.size() == fun.size()`, then runs the loop; the result is the
advanced iterator (remaining input) and the extended `out`. -/
def term_set.filter {T : Type} (s : term_set T) (input : List fl)
    (out : List fl) : Option (List fl × List fl) :=
  if s.enabled.length = s.funs.length then filterLoop s.enabled input out
  else none

/-- The values of a list sitting at the positions whose flag is set, in
order (the reference selection a filtering loop must produce). -/
def selectEnabled {α : Type} : List Bool → List α → List α
  | b :: bs, v :: vs => (if b then [v] else []) ++ selectEnabled bs vs
  | _, _ => []

section Claims1

/-- C1: for every charge-dependent term, atoms `a`, `b` and distance `r`,
`eval(a, b, r)` equals
`c.type_only + qa*c.a_charge + qb*c.b_charge + qa*qb*c.ab_charge` where
`c = eval_components(type of a, type of b, r)`; and for the concrete
components `{1, 2, 3, 4}` with charges `qa = 0.5`, `qb = -1` the result
is `-3`. -/
theorem charge_dependent_eval_decomposition :
    (∀ (t : charge_dependent) (a b : atom_base) (r : fl),
      t.eval a b r =
        (t.eval_components a.sm b.sm r).type_dependent_only +
          a.charge * (t.eval_components a.sm b.sm r).a_charge_dependent +
          b.charge * (t.eval_components a.sm b.sm r).b_charge_dependent +
          a.charge * b.charge * (t.eval_components a.sm b.sm r).ab_charge_dependent) ∧
    charge_dependent.eval
      { name := "const", cutoff := 8,
        eval_components := fun _ _ _ =>
          { type_dependent_only := 1, a_charge_dependent := 2,
            b_charge_dependent := 3, ab_charge_dependent := 4 } }
      { sm := 0, charge := 1/2 } { sm := 1, charge := -1 } 1 = -3 := by
  constructor
  · intro t a b r
    rfl
  · norm_num [charge_dependent.eval]

/-- C8: elementwise combination of two `components` values is commutative
and associative, and combining a plain scalar adds it only to the type-only
slot, leaving the three charge-scaled slots unchanged. -/
theorem components_combination_algebra (x y z : components) (v : fl) :
    x.addComponents y = y.addComponents x ∧
    (x.addComponents y).addComponents z = x.addComponents (y.addComponents z) ∧
    (x.addScalar v).type_dependent_only = x.type_dependent_only + v ∧
    (x.addScalar v).a_charge_dependent = x.a_charge_dependent ∧
    (x.addScalar v).b_charge_dependent = x.b_charge_dependent ∧
    (x.addScalar v).ab_charge_dependent = x.ab_charge_dependent := by
  refine ⟨?_, ?_, rfl, rfl, rfl, rfl⟩
  · simp only [components.addComponents, components.mk.injEq]
    refine ⟨?_, ?_, ?_, ?_⟩ <;> ring
  · simp only [components.addComponents, components.mk.injEq]
    refine ⟨?_, ?_, ?_, ?_⟩ <;> ring

/-- C6: invoking the two-type "usable" evaluation with no override in effect
raises the fatal failure signal and returns the sentinel value 0 — it never
produces a result with the signal unraised. -/
theorem usable_default_eval_signals (u : usable)
    (hdef : u.eval_override = none) (t1 t2 : smt) (r : fl) (a b : atom_base) :
    u.eval_types t1 t2 r = { check_failed := true, value := 0 } ∧
    (u.eval a b r).check_failed = true ∧ (u.eval a b r).value = 0 := by
  simp [usable.eval_types, usable.eval, hdef]

/-- C6 witness: a concrete usable term with the default two-type body
raises the signal and returns the sentinel 0. -/
theorem usable_default_eval_signals_witness :
    usable.eval_types { name := "plain", cutoff := 4, eval_override := none } 2 3 1 =
      { check_failed := true, value := 0 } ∧
    (usable.eval { name := "plain", cutoff := 4, eval_override := none }
        { sm := 2, charge := 1 } { sm := 3, charge := -1 } 1).check_failed = true ∧
    (usable.eval { name := "plain", cutoff := 4, eval_override := none }
        { sm := 2, charge := 1 } { sm := 3, charge := -1 } 1).value = 0 :=
  usable_default_eval_signals { name := "plain", cutoff := 4, eval_override := none }
    rfl 2 3 1 { sm := 2, charge := 1 } { sm := 3, charge := -1 }

/-- C10: the atom-pair evaluation of a usable term depends only on the two
atom types and the distance: two atom pairs with equal types give equal
results even when the partial charges differ. -/
theorem usable_eval_charge_independent (u : usable) (a b a' b' : atom_base)
    (r : fl) (ha : a.sm = a'.sm) (hb : b.sm = b'.sm) :
    u.eval a b r = u.eval a' b' r := by
  simp [usable.eval, atom_base.get, ha, hb]

/-- C10 witness: an overridden usable term evaluated at two atom pairs with
equal types but different charges gives the same value. -/
theorem usable_eval_charge_independent_witness :
    ({ sm := 5, charge := 1 } : atom_base).sm = ({ sm := 5, charge := -2 } : atom_base).sm ∧
    ({ sm := 7, charge := 0 } : atom_base).sm = ({ sm := 7, charge := 3 } : atom_base).sm ∧
    usable.eval
        { name := "ovr", cutoff := 6, eval_override := some (fun t1 t2 r => (t1 : fl) + t2 + r) }
        { sm := 5, charge := 1 } { sm := 7, charge := 0 } 2 =
      usable.eval
        { name := "ovr", cutoff := 6, eval_override := some (fun t1 t2 r => (t1 : fl) + t2 + r) }
        { sm := 5, charge := -2 } { sm := 7, charge := 3 } 2 :=
  ⟨rfl, rfl,
    usable_eval_charge_independent
      { name := "ovr", cutoff := 6, eval_override := some (fun t1 t2 r => (t1 : fl) + t2 + r) }
      { sm := 5, charge := 1 } { sm := 7, charge := 0 }
      { sm := 5, charge := -2 } { sm := 7, charge := 3 } 2 rfl rfl⟩

end Claims1

theorem addAll_enabled {T : Type} (ps : List (ℕ × T)) (s : term_set T) :
    (s.addAll ps).enabled = s.enabled ++ ps.map (fun p => decide (0 < p.1)) := by
  induction ps generalizing s with
  | nil => simp [term_set.addAll]
  | cons p ps ih =>
    show ((s.add p.1 p.2).addAll ps).enabled = _
    rw [ih]
    simp [term_set.add]

theorem addAll_funs {T : Type} (ps : List (ℕ × T)) (s : term_set T) :
    (s.addAll ps).funs = s.funs ++ ps.map Prod.snd := by
  induction ps generalizing s with
  | nil => simp [term_set.addAll]
  | cons p ps ih =>
    show ((s.add p.1 p.2).addAll ps).funs = _
    rw [ih]
    simp [term_set.add]

theorem filterLoop_spec (bs : List Bool) :
    ∀ (input out : List fl), bs.length ≤ input.length →
      filterLoop bs input out = some (input.drop bs.length, out ++ selectEnabled bs input) := by
  induction bs with
  | nil => intro input out _; simp [filterLoop, selectEnabled]
  | cons b bs ih =>
    intro input out h
    match input with
    | [] => simp at h
    | v :: vs =>
      simp only [List.length_cons, Nat.succ_le_succ_iff] at h
      show filterLoop bs vs (if b then out ++ [v] else out) = _
      rw [ih vs _ h]
      cases b <;> simp [selectEnabled]

theorem selectEnabled_length {α : Type} (bs : List Bool) :
    ∀ (vs : List α), bs.length ≤ vs.length →
      (selectEnabled bs vs).length = bs.count true := by
  induction bs with
  | nil => intro vs _; simp [selectEnabled]
  | cons b bs ih =>
    intro vs h
    match vs with
    | [] => simp at h
    | v :: vs =>
      simp only [List.length_cons, Nat.succ_le_succ_iff] at h
      cases b <;> simp [selectEnabled, ih vs h, List.count_cons]

theorem appendNamesLoop_spec {T : Type} [TermLike T] (eo : Bool) (fs : List T) :
    ∀ (bs : List Bool) (out : List String), bs.length = fs.length →
      appendNamesLoop eo fs bs out =
        out ++ (if eo then selectEnabled bs (fs.map TermLike.name)
                else fs.map TermLike.name) := by
  induction fs with
  | nil =>
    intro bs out h
    rw [List.length_eq_zero.mp h]
    cases eo <;> simp [appendNamesLoop, selectEnabled]
  | cons f fs ih =>
    intro bs out h
    match bs with
    | [] => simp at h
    | b :: bs =>
      simp only [List.length_cons, Nat.succ_inj'] at h
      show appendNamesLoop eo fs bs (if !eo || b then out ++ [TermLike.name f] else out) = _
      rw [ih bs _ h]
      cases eo <;> cases b <;> simp [selectEnabled]

/-- A concrete term used by witnesses. -/
def witA : usable := { name := "wa", cutoff := 1, eval_override := none }

/-- A second concrete term used by witnesses. -/
def witB : usable := { name := "wb", cutoff := 2, eval_override := none }

/-- A concrete two-term registry used by witnesses: first term enabled,
second disabled. -/
def witSet : term_set usable := { enabled := [true, false], funs := [witA, witB] }

section Claims2

/-- C2: starting from a fresh registry, after any sequence of
`add(weight, term)` calls the invariant `enabled.length == terms.length`
holds, every flag at position `k` is `weight_k > 0` for the weight passed
at position `k`, and the terms sit in registration order.  (Every prefix of
the sequence is itself such a sequence, so the invariant holds after each
individual `add`.) -/
theorem term_set_add_invariant {T : Type} (ps : List (ℕ × T)) :
    (term_set.addAll term_set.empty ps).enabled.length =
      (term_set.addAll term_set.empty ps).funs.length ∧
    (term_set.addAll term_set.empty ps).enabled =
      ps.map (fun p => decide (0 < p.1)) ∧
    (term_set.addAll term_set.empty ps).funs = ps.map Prod.snd := by
  rw [addAll_enabled, addAll_funs]
  simp [term_set.empty]

/-- C3: when the flag and term vectors agree in length and the input holds
at least `size()` values, `filter(in, out)` advances the input iterator by
exactly `size()` positions and appends to `out` (without clearing it)
exactly the input values at enabled positions in order — `num_enabled()`
values in total. -/
theorem term_set_filter_spec {T : Type} (s : term_set T) (input out : List fl)
    (hlen : s.enabled.length = s.funs.length) (hin : s.size ≤ input.length) :
    s.filter input out =
      some (input.drop s.size, out ++ selectEnabled s.enabled input) ∧
    (selectEnabled s.enabled input).length = s.num_enabled := by
  have hbs : s.enabled.length ≤ input.length := by
    rw [hlen]; exact hin
  constructor
  · rw [term_set.filter, if_pos hlen, filterLoop_spec s.enabled input out hbs]
    rw [show s.size = s.enabled.length from (hlen ▸ rfl)]
  · rw [selectEnabled_length s.enabled input hbs, term_set.num_enabled]

/-- C3 witness: a two-term registry with flags `[true, false]`, input
`[10, 20, 30]` and pre-existing output `[99]`. -/
theorem term_set_filter_spec_witness :
    term_set.filter witSet [10, 20, 30] [99] =
      some (([10, 20, 30] : List fl).drop witSet.size,
        [99] ++ selectEnabled witSet.enabled [10, 20, 30]) ∧
    (selectEnabled witSet.enabled ([10, 20, 30] : List fl)).length =
      witSet.num_enabled :=
  term_set_filter_spec witSet [10, 20, 30] [99] rfl (by decide)

/-- C7: when the flag and term vectors agree in length,
`get_names(enabled_only, out)` appends names to `out` without clearing it:
with `enabled_only` set, exactly the names at enabled positions in
registration order; with it unset, all names in registration order. -/
theorem term_set_get_names_spec {T : Type} [TermLike T] (s : term_set T)
    (out : List String) (hlen : s.enabled.length = s.funs.length) :
    s.get_names true out =
      some (out ++ selectEnabled s.enabled (s.funs.map TermLike.name)) ∧
    s.get_names false out = some (out ++ s.funs.map TermLike.name) := by
  have hmap : s.enabled.length = (s.funs.map TermLike.name).length := by
    simpa using hlen
  constructor
  · rw [term_set.get_names, if_pos hlen, appendNamesLoop_spec true s.funs s.enabled out hlen]
    simp
  · rw [term_set.get_names, if_pos hlen, appendNamesLoop_spec false s.funs s.enabled out hlen]
    simp

/-- C7 witness: the two-term registry with flags `[true, false]` and a
pre-existing output. -/
theorem term_set_get_names_spec_witness :
    term_set.get_names witSet true ["x"] =
      some (["x"] ++ selectEnabled witSet.enabled (witSet.funs.map TermLike.name)) ∧
    term_set.get_names witSet false ["x"] =
      some (["x"] ++ witSet.funs.map TermLike.name) :=
  term_set_get_names_spec witSet ["x"] rfl

end Claims2

theorem foldl_max_spec (l : List fl) :
    ∀ (a : fl), a ≤ l.foldl max a ∧
      (∀ x ∈ l, x ≤ l.foldl max a) ∧
      (l.foldl max a = a ∨ ∃ x ∈ l, l.foldl max a = x) := by
  induction l with
  | nil => intro a; simp
  | cons x l ih =>
    intro a
    have h := ih (max a x)
    simp only [List.foldl_cons]
    refine ⟨le_trans (le_max_left a x) h.1, ?_, ?_⟩
    · intro y hy
      rcases List.mem_cons.mp hy with h1 | hy
      · rw [h1]; exact le_trans (le_max_right a x) h.1
      · exact h.2.1 y hy
    · rcases h.2.2 with heq | ⟨y, hy, heq⟩
      · rcases max_choice a x with hmax | hmax
        · left; rw [heq, hmax]
        · right; exact ⟨x, List.mem_cons_self x l, by rw [heq, hmax]⟩
      · right; exact ⟨y, List.mem_cons_of_mem x hy, heq⟩

theorem max_cutoff_eq_foldl {T : Type} [HasCutoff T] (s : term_set T) :
    s.max_cutoff = (s.funs.map HasCutoff.cutoff).foldl max 0 := by
  simp [term_set.max_cutoff, List.foldl_map]

section Claims3

/-- C5 counterexample: a one-term registry whose single cutoff is `-1`.
The maximum cutoff across all terms is `-1`, but `max_cutoff()` returns
`0`, so the claim as stated fails on the code. -/
theorem max_cutoff_counterexample :
    (term_set.add term_set.empty 1
        { name := "neg", cutoff := -1, eval_override := none } :
      term_set usable).funs.map HasCutoff.cutoff = [-1] ∧
    (term_set.add term_set.empty 1
        { name := "neg", cutoff := -1, eval_override := none } :
      term_set usable).max_cutoff = 0 ∧
    ((0 : fl) ≠ -1) := by
  refine ⟨rfl, ?_, by norm_num⟩
  show max (0 : fl) (-1) = 0
  exact max_eq_left (by norm_num)

/-- C5 (amended): `max_cutoff()` returns the maximum of 0 and the cutoffs
of all terms, regardless of their enable flags — in particular it is an
upper bound of every cutoff and is either 0 or one of the cutoffs, so it is
the maximum cutoff whenever some cutoff is nonnegative; it is `4.5` for
cutoffs `{2, 4.5, 3.1}` and `0` for an empty registry. -/
theorem max_cutoff_amended {T : Type} [HasCutoff T] (s : term_set T) :
    0 ≤ s.max_cutoff ∧
    (∀ f ∈ s.funs, HasCutoff.cutoff f ≤ s.max_cutoff) ∧
    (s.max_cutoff = 0 ∨ ∃ f ∈ s.funs, s.max_cutoff = HasCutoff.cutoff f) ∧
    (term_set.addAll term_set.empty
        [(1, { name := "c1", cutoff := 2, eval_override := none }),
         (0, { name := "c2", cutoff := 9/2, eval_override := none }),
         (1, { name := "c3", cutoff := 31/10, eval_override := none })] :
      term_set usable).max_cutoff = 9/2 ∧
    (term_set.empty : term_set usable).max_cutoff = 0 := by
  have h := foldl_max_spec (s.funs.map HasCutoff.cutoff) 0
  rw [max_cutoff_eq_foldl s]
  refine ⟨h.1, ?_, ?_, ?_, rfl⟩
  · intro f hf
    exact h.2.1 _ (List.mem_map_of_mem _ hf)
  · rcases h.2.2 with heq | ⟨x, hx, heq⟩
    · left; exact heq
    · right
      rcases List.mem_map.mp hx with ⟨f, hf, rfl⟩
      exact ⟨f, hf, heq⟩
  · show max (max (max (0 : fl) 2) (9/2)) (31/10) = 9/2
    rw [max_eq_right (by norm_num : (0 : fl) ≤ 2),
        max_eq_right (by norm_num : (2 : fl) ≤ 9/2),
        max_eq_left (by norm_num : (31/10 : fl) ≤ 9/2)]

/-- C5 witness (for the amended statement): on the concrete two-term
registry, the first term's cutoff is bounded by `max_cutoff()`, which is
itself nonnegative. -/
theorem max_cutoff_amended_witness :
    HasCutoff.cutoff witA ≤ witSet.max_cutoff ∧ 0 ≤ witSet.max_cutoff :=
  ⟨(max_cutoff_amended witSet).2.1 witA (by simp [witSet]),
    (max_cutoff_amended witSet).1⟩

end Claims3

/-- The weighted factors container: `e` the external group, `i` the
internal group. -/
structure factors where
  e : flv
  i : flv

/-- `factors::size()`. -/
def factors.size (f : factors) : sz := f.e.length + f.i.length

/-- `factors::num_weights()` — `(e.size() > i.size()) ? e.size() :
i.size()`. -/
def factors.num_weights (f : factors) : sz :=
  if f.e.length > f.i.length then f.e.length else f.i.length

/-- Modelled from the spec: `factors::eval(const flv&, bool)` is only
declared in `terms.h`; its body lives in a translation unit outside the
provided sources.  Spec §4.4: sums `e[k]*weights[k]` over all `k`, adds the
sums `i[k]*weights[k]` only when `include_internal` is set, and fails with
a precondition violation (modelled as `none`) when `weights` has fewer
entries than `num_weights()`. -/
def factors.eval (f : factors) (weights : flv) (include_internal : Bool) :
    Option fl :=
  if weights.length < f.num_weights then none
  else
    some ((List.zipWith (· * ·) f.e weights).sum +
      if include_internal then (List.zipWith (· * ·) f.i weights).sum else 0)

theorem zipWith_mul_sum_eq (xs : List fl) :
    ∀ (ws : List fl), xs.length ≤ ws.length →
      (List.zipWith (· * ·) xs ws).sum =
        ∑ k ∈ Finset.range xs.length, xs.getD k 0 * ws.getD k 0 := by
  induction xs with
  | nil => intro ws _; simp
  | cons x xs ih =>
    intro ws h
    match ws with
    | [] => simp at h
    | w :: ws =>
      simp only [List.length_cons, Nat.succ_le_succ_iff] at h
      rw [List.zipWith_cons_cons, List.sum_cons, ih ws h,
        List.length_cons, Finset.sum_range_succ']
      simp only [List.getD_cons_succ, List.getD_cons_zero]
      exact add_comm _ _

section Claims4

/-- C4: given a weight vector with at least `num_weights()` entries,
`factors.eval(weights, include_internal)` returns the sum of
`e[k]*weights[k]` over all `k`, plus the sum of `i[k]*weights[k]` over all
`k` exactly when `include_internal` is set; with fewer entries it fails.
Concretely, with `e=[1,2]`, `i=[10,20]`, `weights=[1,0.5]` it returns `2`
without internal and `22` with internal. -/
theorem factors_eval_spec (f : factors) (w : flv) (b : Bool) :
    (f.num_weights ≤ w.length →
      f.eval w b =
        some ((∑ k ∈ Finset.range f.e.length, f.e.getD k 0 * w.getD k 0) +
          if b then ∑ k ∈ Finset.range f.i.length, f.i.getD k 0 * w.getD k 0
          else 0)) ∧
    (w.length < f.num_weights → f.eval w b = none) ∧
    factors.eval (factors.mk [1, 2] [10, 20]) [1, 1/2] false = some 2 ∧
    factors.eval (factors.mk [1, 2] [10, 20]) [1, 1/2] true = some 22 := by
  have he : f.e.length ≤ f.num_weights := by
    rw [factors.num_weights]; split <;> omega
  have hi : f.i.length ≤ f.num_weights := by
    rw [factors.num_weights]; split <;> omega
  refine ⟨?_, ?_, ?_, ?_⟩
  · intro h
    rw [factors.eval, if_neg (not_lt.mpr h)]
    rw [zipWith_mul_sum_eq f.e w (le_trans he h),
      zipWith_mul_sum_eq f.i w (le_trans hi h)]
  · intro h
    rw [factors.eval, if_pos h]
  · norm_num [factors.eval, factors.num_weights]
  · norm_num [factors.eval, factors.num_weights]

/-- C4 witness: the concrete `factors` from the spec's example with a
sufficient weight vector, evaluated through the theorem. -/
theorem factors_eval_spec_witness :
    (factors.mk [1, 2] [10, 20]).num_weights ≤ ([1, 1/2] : flv).length ∧
    factors.eval (factors.mk [1, 2] [10, 20]) [1, 1/2] false =
      some ((∑ k ∈ Finset.range (factors.mk [1, 2] [10, 20]).e.length,
          (factors.mk [1, 2] [10, 20]).e.getD k 0 * ([1, 1/2] : flv).getD k 0) +
        if false then
          ∑ k ∈ Finset.range (factors.mk [1, 2] [10, 20]).i.length,
            (factors.mk [1, 2] [10, 20]).i.getD k 0 * ([1, 1/2] : flv).getD k 0
        else 0) :=
  ⟨by decide,
    (factors_eval_spec (factors.mk [1, 2] [10, 20]) [1, 1/2] false).1 (by decide)⟩

end Claims4

/-- Modelled from the spec: the molecular model is an external collaborator
("the molecular model representation ... referred to abstractly as the
model" is out of scope for this unit), so it is an abstract placeholder
type; no claim depends on its structure. -/
structure model where

/-- Modelled from the spec: an atom-index value identifying a specific atom
within the model (external model header). -/
structure atom_index where
  idx : sz
  in_grid : Bool

/-- A distance-additive term: the pure-virtual
`eval(const atom_base&, const atom_base&, fl)` is modelled as a function
field. -/
structure distance_additive where
  name : String
  cutoff : fl
  eval : atom_base → atom_base → fl → fl

/-- An additive term: evaluates from the whole model and two atom indices;
its constructor sets `cutoff` to `max_fl` ("unbounded"), left here as an
ordinary field since no claim touches it. -/
structure additive where
  name : String
  cutoff : fl
  eval : model → atom_index → atom_index → fl

/-- An intermolecular term: evaluates from the whole model alone. -/
structure intermolecular where
  name : String
  eval : model → fl

/-- The seven conformation-independent features. -/
structure conf_independent_inputs where
  num_tors : fl
  num_rotors : fl
  num_heavy_atoms : fl
  num_hydrophobic_atoms : fl
  ligand_max_num_h_bonds : fl
  num_ligands : fl
  ligand_lengths_sum : fl

/-- A conformation-independent term: folds its contribution into a running
scalar, consuming `size` free parameters from the iterator (modelled as the
list of values not yet consumed). -/
structure conf_independent where
  name : String
  eval : conf_independent_inputs → fl → List fl → fl × List fl
  size : sz

instance : TermLike distance_additive := ⟨distance_additive.name⟩

instance : TermLike additive := ⟨additive.name⟩

instance : TermLike intermolecular := ⟨intermolecular.name⟩

instance : TermLike conf_independent := ⟨conf_independent.name⟩

instance : HasCutoff distance_additive := ⟨distance_additive.cutoff⟩

instance : HasCutoff additive := ⟨additive.cutoff⟩

/-- The scoring aggregate `terms`: one registry per term kind. -/
structure terms where
  distance_additive_terms : term_set distance_additive
  usable_terms : term_set usable
  additive_terms : term_set additive
  intermolecular_terms : term_set intermolecular
  conf_independent_terms : term_set conf_independent

/-- `terms::add(unsigned e, distance_additive* p)` — the overload selected
for a distance-additive pointer routes to the distance-additive registry. -/
def terms.add_distance_additive (t : terms) (e : ℕ) (p : distance_additive) : terms :=
  { t with distance_additive_terms := t.distance_additive_terms.add e p }

/-- `terms::add(unsigned e, usable* p)`. -/
def terms.add_usable (t : terms) (e : ℕ) (p : usable) : terms :=
  { t with usable_terms := t.usable_terms.add e p }

/-- `terms::add(unsigned e, additive* p)`. -/
def terms.add_additive (t : terms) (e : ℕ) (p : additive) : terms :=
  { t with additive_terms := t.additive_terms.add e p }

/-- `terms::add(unsigned e, intermolecular* p)`. -/
def terms.add_intermolecular (t : terms) (e : ℕ) (p : intermolecular) : terms :=
  { t with intermolecular_terms := t.intermolecular_terms.add e p }

/-- `terms::add(unsigned e, conf_independent* p)`. -/
def terms.add_conf_independent (t : terms) (e : ℕ) (p : conf_independent) : terms :=
  { t with conf_independent_terms := t.conf_independent_terms.add e p }

section Claims5

/-- C9: each `add` overload appends its term (with the enable flag derived
from `e > 0`) to exactly the registry matching the pointer's static kind
and leaves the other four registries unchanged. -/
theorem terms_add_dispatch (t : terms) (e : ℕ) (p1 : distance_additive)
    (p2 : usable) (p3 : additive) (p4 : intermolecular)
    (p5 : conf_independent) :
    ((t.add_distance_additive e p1).distance_additive_terms.enabled =
        t.distance_additive_terms.enabled ++ [decide (0 < e)] ∧
      (t.add_distance_additive e p1).distance_additive_terms.funs =
        t.distance_additive_terms.funs ++ [p1] ∧
      (t.add_distance_additive e p1).usable_terms = t.usable_terms ∧
      (t.add_distance_additive e p1).additive_terms = t.additive_terms ∧
      (t.add_distance_additive e p1).intermolecular_terms = t.intermolecular_terms ∧
      (t.add_distance_additive e p1).conf_independent_terms = t.conf_independent_terms) ∧
    ((t.add_usable e p2).usable_terms.enabled =
        t.usable_terms.enabled ++ [decide (0 < e)] ∧
      (t.add_usable e p2).usable_terms.funs = t.usable_terms.funs ++ [p2] ∧
      (t.add_usable e p2).distance_additive_terms = t.distance_additive_terms ∧
      (t.add_usable e p2).additive_terms = t.additive_terms ∧
      (t.add_usable e p2).intermolecular_terms = t.intermolecular_terms ∧
      (t.add_usable e p2).conf_independent_terms = t.conf_independent_terms) ∧
    ((t.add_additive e p3).additive_terms.enabled =
        t.additive_terms.enabled ++ [decide (0 < e)] ∧
      (t.add_additive e p3).additive_terms.funs = t.additive_terms.funs ++ [p3] ∧
      (t.add_additive e p3).distance_additive_terms = t.distance_additive_terms ∧
      (t.add_additive e p3).usable_terms = t.usable_terms ∧
      (t.add_additive e p3).intermolecular_terms = t.intermolecular_terms ∧
      (t.add_additive e p3).conf_independent_terms = t.conf_independent_terms) ∧
    ((t.add_intermolecular e p4).intermolecular_terms.enabled =
        t.intermolecular_terms.enabled ++ [decide (0 < e)] ∧
      (t.add_intermolecular e p4).intermolecular_terms.funs =
        t.intermolecular_terms.funs ++ [p4] ∧
      (t.add_intermolecular e p4).distance_additive_terms = t.distance_additive_terms ∧
      (t.add_intermolecular e p4).usable_terms = t.usable_terms ∧
      (t.add_intermolecular e p4).additive_terms = t.additive_terms ∧
      (t.add_intermolecular e p4).conf_independent_terms = t.conf_independent_terms) ∧
    ((t.add_conf_independent e p5).conf_independent_terms.enabled =
        t.conf_independent_terms.enabled ++ [decide (0 < e)] ∧
      (t.add_conf_independent e p5).conf_independent_terms.funs =
        t.conf_independent_terms.funs ++ [p5] ∧
      (t.add_conf_independent e p5).distance_additive_terms = t.distance_additive_terms ∧
      (t.add_conf_independent e p5).usable_terms = t.usable_terms ∧
      (t.add_conf_independent e p5).additive_terms = t.additive_terms ∧
      (t.add_conf_independent e p5).intermolecular_terms = t.intermolecular_terms) :=
  ⟨⟨rfl, rfl, rfl, rfl, rfl, rfl⟩, ⟨rfl, rfl, rfl, rfl, rfl, rfl⟩,
    ⟨rfl, rfl, rfl, rfl, rfl, rfl⟩, ⟨rfl, rfl, rfl, rfl, rfl, rfl⟩,
    ⟨rfl, rfl, rfl, rfl, rfl, rfl⟩⟩

end Claims5
